import Mathlib

/-!
Verification of the Flavour-Remix backend core (`main.py`,
`utils/scoring.py`, `utils/flavour.py`) against its specification.

Embedding conventions:
* Python strings are Lean `String`s, but every string operation
  (`strip`, `lower`, `split`, substring test, …) is re-implemented
  structurally over `String.data : List Char`, restricted to ASCII,
  so that every definition evaluates inside the kernel.
* Python floats are modelled as exact rationals `ℚ`; a quotient
  `a / b` from the source is written `mkRat a b` (the same rational
  number) and `round(x, 4)` is `round4` (round half to even, the mode
  Python's `round` uses on exact ties).
* Python `set`s are `Finset String` where only cardinalities and
  membership matter (scoring), and insertion-ordered duplicate-free
  lists where the source sorts the set into a list (flavour profiles).
* Network calls (`requests.get`, FlavorDB / RecipeDB lookups) are
  parameters: a function under test receives the decoded upstream
  response (or the raised client error) as an argument.
-/

set_option maxRecDepth 10000

namespace FlavourRemix

/-! ### Python string primitives over `List Char` -/

/-- ASCII whitespace recognised by Python's `str.strip()`
(the Unicode cases do not occur in this repository's data). -/
def pyIsSpace (c : Char) : Bool :=
  c = ' ' || c = '\t' || c = '\n' || c = '\r' || c = '\x0b' || c = '\x0c'

/-- ASCII lowercasing of one character, as Python's `str.lower()` acts on
the ASCII range. -/
def lowerChar (c : Char) : Char :=
  if 'A' ≤ c ∧ c ≤ 'Z' then Char.ofNat (c.toNat + 32) else c

/-- Remove leading and trailing whitespace from a character list. -/
def stripChars (l : List Char) : List Char :=
  ((l.dropWhile pyIsSpace).reverse.dropWhile pyIsSpace).reverse

/-- Python `s.strip()`. -/
def pyStrip (s : String) : String := String.mk (stripChars s.data)

/-- Python `s.lower()`. -/
def pyLower (s : String) : String := String.mk (s.data.map lowerChar)

/-- Python `s.strip().lower()`, the composition used throughout the source. -/
def pyStripLower (s : String) : String := pyLower (pyStrip s)

/-! ### Python `round(x, 4)` over exact rationals -/

/-- Round a rational to the nearest integer, ties to the even neighbour —
the rounding mode of Python's builtin `round`.  `mkRat (2 * f + 1) 2` is
`f + 1/2`, written this way so the definition evaluates in the kernel. -/
def roundHalfEven (q : ℚ) : ℤ :=
  if q < mkRat (2 * ⌊q⌋ + 1) 2 then ⌊q⌋
  else if mkRat (2 * ⌊q⌋ + 1) 2 < q then ⌊q⌋ + 1
  else if ⌊q⌋ % 2 = 0 then ⌊q⌋ else ⌊q⌋ + 1

/-- Python `round(x, 4)`: round to four decimal places.
`mkRat (q.num * 10000) q.den` is `q * 10000` (see `scale10000_eq`). -/
def round4 (q : ℚ) : ℚ :=
  mkRat (roundHalfEven (mkRat (q.num * 10000) q.den)) 10000

theorem half_point_eq (f : ℤ) : (mkRat (2 * f + 1) 2 : ℚ) = (f : ℚ) + 1 / 2 := by
  rw [Rat.mkRat_eq_div]
  push_cast
  ring

theorem scale10000_eq (q : ℚ) : (mkRat (q.num * 10000) q.den : ℚ) = q * 10000 := by
  rw [Rat.mkRat_eq_div]
  push_cast
  rw [mul_comm (q.num : ℚ) 10000, mul_div_assoc, Rat.num_div_den, mul_comm]

theorem floor_le_roundHalfEven (q : ℚ) : ⌊q⌋ ≤ roundHalfEven q := by
  unfold roundHalfEven
  split_ifs <;> omega

theorem roundHalfEven_le_of_le (q : ℚ) (n : ℤ) (h : q ≤ (n : ℚ)) :
    roundHalfEven q ≤ n := by
  have hf : ⌊q⌋ ≤ n := by
    have h1 : ⌊q⌋ ≤ ⌊(n : ℚ)⌋ := Int.floor_le_floor h
    simpa using h1
  unfold roundHalfEven
  split_ifs with h1 h2 h3
  · exact hf
  all_goals
    first
    | exact hf
    | (have hge : (mkRat (2 * ⌊q⌋ + 1) 2 : ℚ) ≤ q := le_of_not_lt h1
       rw [half_point_eq] at hge
       have hlt : (⌊q⌋ : ℚ) < (n : ℚ) := by linarith
       have : ⌊q⌋ < n := by exact_mod_cast hlt
       omega)

theorem le_roundHalfEven_of_le (n : ℤ) (q : ℚ) (h : (n : ℚ) ≤ q) :
    n ≤ roundHalfEven q := by
  have h1 : n ≤ ⌊q⌋ := by
    have := Int.floor_le_floor h
    simpa using this
  exact le_trans h1 (floor_le_roundHalfEven q)

theorem round4_eq (q : ℚ) :
    round4 q = (roundHalfEven (q * 10000) : ℚ) / 10000 := by
  unfold round4
  rw [Rat.mkRat_eq_div, scale10000_eq]
  norm_num

theorem round4_nonneg (q : ℚ) (h : 0 ≤ q) : 0 ≤ round4 q := by
  rw [round4_eq]
  have h1 : (0 : ℤ) ≤ roundHalfEven (q * 10000) :=
    le_roundHalfEven_of_le 0 _ (by push_cast; linarith)
  have h2 : (0 : ℚ) ≤ (roundHalfEven (q * 10000) : ℚ) := by exact_mod_cast h1
  positivity

theorem round4_le_one (q : ℚ) (h : q ≤ 1) : round4 q ≤ 1 := by
  rw [round4_eq]
  have h1 : roundHalfEven (q * 10000) ≤ 10000 :=
    roundHalfEven_le_of_le _ 10000 (by push_cast; linarith)
  rw [div_le_one (by norm_num : (0:ℚ) < 10000)]
  exact_mod_cast h1

theorem round4_ge_threshold (q : ℚ) (h : (mkRat 72 100 : ℚ) ≤ q) :
    (mkRat 72 100 : ℚ) ≤ round4 q := by
  rw [round4_eq]
  rw [Rat.mkRat_eq_div] at h ⊢
  have h' : (72 : ℚ) / 100 ≤ q := by push_cast at h; exact h
  have h1 : (7200 : ℤ) ≤ roundHalfEven (q * 10000) := by
    apply le_roundHalfEven_of_le
    push_cast
    linarith
  have h2 : (7200 : ℚ) ≤ (roundHalfEven (q * 10000) : ℚ) := by exact_mod_cast h1
  push_cast
  rw [div_le_div_iff₀ (by norm_num) (by norm_num)]
  linarith

/-! ### `utils/scoring.py` -/

/-- The result dictionary produced by `calculate_similarity`. -/
structure SimilarityResult where
  overlap_count : ℕ
  jaccard : ℚ
  dice : ℚ
  overlap_terms : List String
deriving DecidableEq

/-- Embedding of `_normalize_profile`: trim, lowercase, drop empties, set semantics. -/
def normalizeProfile (profile : List String) : Finset String :=
  ((profile.map pyStripLower).filter (fun c => c ≠ "")).toFinset

/-- The all-zero result returned when either normalized set is empty. -/
def zeroSimilarity : SimilarityResult :=
  { overlap_count := 0, jaccard := 0, dice := 0, overlap_terms := [] }

/-- Embedding of `calculate_similarity` from `utils/scoring.py`.  The Python locals
`set1`, `set2`, `overlap`, `union` are inlined; `len(overlap)/len(union)`
is `mkRat overlap.card union.card`, the same rational number. -/
def calculateSimilarity (profile1 profile2 : List String) : SimilarityResult :=
  if normalizeProfile profile1 = ∅ ∨ normalizeProfile profile2 = ∅ then
    zeroSimilarity
  else
    { overlap_count := (normalizeProfile profile1 ∩ normalizeProfile profile2).card
      jaccard := round4 (mkRat ((normalizeProfile profile1 ∩ normalizeProfile profile2).card)
        ((normalizeProfile profile1 ∪ normalizeProfile profile2).card))
      dice := round4 (mkRat (2 * (normalizeProfile profile1 ∩ normalizeProfile profile2).card)
        ((normalizeProfile profile1).card + (normalizeProfile profile2).card))
      overlap_terms := (normalizeProfile profile1 ∩ normalizeProfile profile2).sort (· ≤ ·) }

theorem mkRat_natCast_nonneg (a : ℕ) (b : ℕ) : (0 : ℚ) ≤ mkRat a b := by
  rw [Rat.mkRat_eq_div]
  positivity

theorem mkRat_natCast_le_one (a b : ℕ) (hab : a ≤ b) (hb : 0 < b) :
    (mkRat a b : ℚ) ≤ 1 := by
  rw [Rat.mkRat_eq_div]
  rw [div_le_one (by exact_mod_cast hb)]
  exact_mod_cast hab

/-- C2: for every pair of input profiles, jaccard and dice lie in `[0,1]`,
`overlap_count` is at most the smaller normalized-set size, and whenever
either normalized set is empty the result is exactly the zero result. -/
theorem claim_C2_similarity_bounds (profile1 profile2 : List String) :
    (0 ≤ (calculateSimilarity profile1 profile2).jaccard ∧
     (calculateSimilarity profile1 profile2).jaccard ≤ 1 ∧
     0 ≤ (calculateSimilarity profile1 profile2).dice ∧
     (calculateSimilarity profile1 profile2).dice ≤ 1 ∧
     (calculateSimilarity profile1 profile2).overlap_count ≤
       min (normalizeProfile profile1).card (normalizeProfile profile2).card) ∧
    ((normalizeProfile profile1 = ∅ ∨ normalizeProfile profile2 = ∅) →
      calculateSimilarity profile1 profile2 = zeroSimilarity) := by
  by_cases hc : normalizeProfile profile1 = ∅ ∨ normalizeProfile profile2 = ∅
  · constructor
    · simp only [calculateSimilarity, if_pos hc, zeroSimilarity]
      norm_num
    · intro _
      simp only [calculateSimilarity, if_pos hc]
  · have h1 : normalizeProfile profile1 ≠ ∅ := fun h => hc (Or.inl h)
    have h2 : normalizeProfile profile2 ≠ ∅ := fun h => hc (Or.inr h)
    have h1n : (normalizeProfile profile1).Nonempty := Finset.nonempty_iff_ne_empty.mpr h1
    have h2n : (normalizeProfile profile2).Nonempty := Finset.nonempty_iff_ne_empty.mpr h2
    have hinter_le_union :
        (normalizeProfile profile1 ∩ normalizeProfile profile2).card ≤
        (normalizeProfile profile1 ∪ normalizeProfile profile2).card :=
      Finset.card_le_card (le_trans Finset.inter_subset_left Finset.subset_union_left)
    have hunion_pos : 0 < (normalizeProfile profile1 ∪ normalizeProfile profile2).card :=
      Finset.card_pos.mpr (h1n.mono Finset.subset_union_left)
    have hsum := Finset.card_inter_add_card_union
      (normalizeProfile profile1) (normalizeProfile profile2)
    have hsum_pos : 0 < (normalizeProfile profile1).card + (normalizeProfile profile2).card :=
      Nat.add_pos_left (Finset.card_pos.mpr h1n) _
    have hil : (normalizeProfile profile1 ∩ normalizeProfile profile2).card ≤
        (normalizeProfile profile1).card :=
      Finset.card_le_card Finset.inter_subset_left
    have hir : (normalizeProfile profile1 ∩ normalizeProfile profile2).card ≤
        (normalizeProfile profile2).card :=
      Finset.card_le_card Finset.inter_subset_right
    constructor
    · simp only [calculateSimilarity, if_neg hc]
      refine ⟨round4_nonneg _ (mkRat_natCast_nonneg _ _),
              round4_le_one _ (mkRat_natCast_le_one _ _ hinter_le_union hunion_pos),
              round4_nonneg _ (mkRat_natCast_nonneg _ _),
              round4_le_one _ ?_, le_min hil hir⟩
      · have h2le : 2 * (normalizeProfile profile1 ∩ normalizeProfile profile2).card ≤
            (normalizeProfile profile1).card + (normalizeProfile profile2).card := by
          omega
        have := mkRat_natCast_le_one _ _ h2le hsum_pos
        simpa using this
    · intro h
      exact absurd h hc

/-- C9: `calculate_similarity` is symmetric in its two arguments. -/
theorem claim_C9_similarity_symm (A B : List String) :
    calculateSimilarity A B = calculateSimilarity B A := by
  unfold calculateSimilarity
  by_cases hc : normalizeProfile A = ∅ ∨ normalizeProfile B = ∅
  · rw [if_pos hc, if_pos hc.symm]
  · rw [if_neg hc, if_neg (fun h => hc h.symm)]
    rw [Finset.inter_comm (normalizeProfile B) (normalizeProfile A),
        Finset.union_comm (normalizeProfile B) (normalizeProfile A),
        Nat.add_comm ((normalizeProfile B).card) ((normalizeProfile A).card)]

/-- Witness for C2 at a concrete degenerate input: the left profile is
empty, so the zero result is returned. -/
theorem claim_C2_similarity_bounds_witness :
    calculateSimilarity [] ["x"] = zeroSimilarity :=
  (claim_C2_similarity_bounds [] ["x"]).2 (Or.inl (by decide))

/-! ### `_normalize_ingredient_name` and `_match_recipe_ingredient` (main.py) -/

/-- The characters `[a-z0-9]` kept by the normalization regex. -/
def isLowerAlnum (c : Char) : Bool :=
  ('a' ≤ c && c ≤ 'z') || ('0' ≤ c && c ≤ '9')

def splitOnCharAux (sep : Char) : List Char → List Char → List (List Char)
  | [], acc => [acc.reverse]
  | c :: rest, acc =>
    if c = sep then acc.reverse :: splitOnCharAux sep rest []
    else splitOnCharAux sep rest (c :: acc)

/-- Split a character list at every occurrence of `sep` (fields may be empty). -/
def splitOnChar (sep : Char) (l : List Char) : List (List Char) :=
  splitOnCharAux sep l []

/-- The nonempty space-separated fields of a character list
(Python `s.split()` on a string whose only whitespace is `' '`). -/
def wordsOf (l : List Char) : List (List Char) :=
  (splitOnChar ' ' l).filter (· ≠ [])

def joinSpace : List (List Char) → List Char
  | [] => []
  | [w] => w
  | w :: ws => w ++ ' ' :: joinSpace ws

/-- Embedding of `_normalize_ingredient_name` from `main.py`: strip and lowercase, turn
every non-`[a-z0-9]` character into a space, then collapse whitespace via
split/join.  (The source replaces whole non-alphanumeric *runs* by one
space; per-character replacement gives the same string after the final
split/join collapse.) -/
def normalizeIngredientName (value : String) : String :=
  String.mk (joinSpace (wordsOf
    (((stripChars value.data).map lowerChar).map
      (fun c => if isLowerAlnum c then c else ' '))))

def startsWithChars : List Char → List Char → Bool
  | [], _ => true
  | _ :: _, [] => false
  | c :: cs, d :: ds => c = d && startsWithChars cs ds

/-- Python's substring test `needle in haystack` on character lists
(in particular `hasSub [] l = true`, as in Python `"" in s`). -/
def hasSub (needle : List Char) : List Char → Bool
  | [] => needle.isEmpty
  | d :: rest => startsWithChars needle (d :: rest) || hasSub needle rest

/-- Python `needle in haystack` on strings. -/
def isSubstringOf (needle haystack : String) : Bool :=
  hasSub needle.data haystack.data

/-- Embedding of `set(norm.split())`: the whitespace-token set of a normalized name. -/
def tokenSet (s : String) : Finset String :=
  ((wordsOf s.data).map String.mk).toFinset

/-- Tier-3 token-overlap score:
`len(target ∩ candidate) / max(len(target_tokens), len(candidate_tokens), 1)`. -/
def tokenScore (targetNorm candidateNorm : String) : ℚ :=
  mkRat ((tokenSet targetNorm ∩ tokenSet candidateNorm).card)
    (max (max (tokenSet targetNorm).card (tokenSet candidateNorm).card) 1)

/-- Length of the common prefix of two character lists. -/
def commonRun : List Char → List Char → ℕ
  | a :: as, b :: bs => if a = b then commonRun as bs + 1 else 0
  | _, _ => 0

/-- Length of the matching run of `a` against `b` starting at positions
`(i, j)`, confined to `a[:ahi]` and `b[:bhi]`. -/
def matchLen (a b : List Char) (i j ahi bhi : ℕ) : ℕ :=
  commonRun ((a.take ahi).drop i) ((b.take bhi).drop j)

/-- Embedding of `difflib.SequenceMatcher.find_longest_match` on `a[alo:ahi]` vs
`b[blo:bhi]`, without the autojunk/popularity heuristic (inactive for
sequences shorter than 200 elements, which covers every string this
repository compares): the longest matching block, tie-broken to the one
starting earliest in `a`, then earliest in `b`. -/
def longestMatch (a b : List Char) (alo ahi blo bhi : ℕ) : ℕ × ℕ × ℕ :=
  (List.range' alo (ahi - alo)).foldl (fun best i =>
    (List.range' blo (bhi - blo)).foldl (fun best j =>
      if best.2.2 < matchLen a b i j ahi bhi then (i, j, matchLen a b i j ahi bhi)
      else best) best)
    (alo, blo, 0)

/-- Total size of all matching blocks (the `M` in `ratio = 2M/T`), following
`get_matching_blocks`' divide-and-conquer around the longest match.  `fuel`
bounds the recursion depth; any `fuel > ahi - alo` is enough, and the bounds
proved below hold for every `fuel`. -/
def totalMatched : ℕ → List Char → List Char → ℕ → ℕ → ℕ → ℕ → ℕ
  | 0, _, _, _, _, _, _ => 0
  | fuel + 1, a, b, alo, ahi, blo, bhi =>
    match longestMatch a b alo ahi blo bhi with
    | (i, j, k) =>
      if k = 0 then 0
      else totalMatched fuel a b alo i blo j + k +
           totalMatched fuel a b (i + k) ahi (j + k) bhi

/-- Embedding of `SequenceMatcher(None, a, b).ratio()` over exact rationals:
`2M / (len(a) + len(b))`, and `1.0` when both strings are empty
(`difflib._calculate_ratio`). -/
def sequenceScore (a b : String) : ℚ :=
  if a.data.length + b.data.length = 0 then 1
  else mkRat ((2 * totalMatched (a.data.length + 1) a.data b.data
    0 a.data.length 0 b.data.length : ℕ)) (a.data.length + b.data.length)

/-- Embedding of `max(token_score, sequence_score)` for one candidate. -/
def blendScore (targetNorm candidateNorm : String) : ℚ :=
  max (tokenScore targetNorm candidateNorm) (sequenceScore targetNorm candidateNorm)

/-- One iteration of the tier-3/4 loop of `_match_recipe_ingredient`:
skip candidates whose normalized form is empty, keep the strictly best
blended score seen so far. -/
def bestCandidateStep (targetNorm : String) (acc : Option String × ℚ) (name : String) :
    Option String × ℚ :=
  if normalizeIngredientName name = "" then acc
  else if acc.2 < blendScore targetNorm (normalizeIngredientName name) then
    (some name, blendScore targetNorm (normalizeIngredientName name))
  else acc

/-- The tier-3/4 loop of `_match_recipe_ingredient` (`best_name`/`best_score`). -/
def bestCandidate (targetNorm : String) (recipeIngredients : List String) :
    Option String × ℚ :=
  recipeIngredients.foldl (bestCandidateStep targetNorm) (none, 0)

/-- Embedding of `_match_recipe_ingredient` from `main.py`.  `mkRat 9 10` is `0.9` and
`mkRat 72 100` is the `0.72` acceptance threshold; the final
`if name ≠ "" ∧ …` mirrors Python's truthiness test `if best_name and
best_score >= 0.72`. -/
def matchRecipeIngredient (target : String) (recipeIngredients : List String) :
    Option String × ℚ :=
  if normalizeIngredientName target = "" then (none, 0)
  else
    match recipeIngredients.find?
        (fun name => normalizeIngredientName name == normalizeIngredientName target) with
    | some name => (some name, 1)
    | none =>
      match recipeIngredients.find? (fun name =>
          isSubstringOf (normalizeIngredientName target) (normalizeIngredientName name) ||
          isSubstringOf (normalizeIngredientName name) (normalizeIngredientName target)) with
      | some name => (some name, mkRat 9 10)
      | none =>
        match bestCandidate (normalizeIngredientName target) recipeIngredients with
        | (some name, score) =>
          if name ≠ "" ∧ mkRat 72 100 ≤ score then (some name, round4 score)
          else (none, 0)
        | (none, _) => (none, 0)

/-- The tier-3/4 accumulation exactly as claim C1 words it: a best score over
*every* candidate, with no skip of empty normalized forms. -/
def bestCandidateStepClaim (targetNorm : String) (acc : Option String × ℚ)
    (name : String) : Option String × ℚ :=
  if acc.2 < blendScore targetNorm (normalizeIngredientName name) then
    (some name, blendScore targetNorm (normalizeIngredientName name))
  else acc

def bestCandidateClaim (targetNorm : String) (recipeIngredients : List String) :
    Option String × ℚ :=
  recipeIngredients.foldl (bestCandidateStepClaim targetNorm) (none, 0)

/-- The matcher exactly as claim C1 describes it, for every target name and
candidate list: tier 1 (normalized equality, confidence 1.0), tier 2
(substring containment either direction, first in list order, 0.9),
tiers 3–4 (best `max(token_score, sequence_score)` over the whole list,
accepted iff `≥ 0.72`, rounded to 4 decimals) — with no guard on an empty
normalized target. -/
def specMatchClaim (target : String) (recipeIngredients : List String) :
    Option String × ℚ :=
  match recipeIngredients.find?
      (fun name => normalizeIngredientName name == normalizeIngredientName target) with
  | some name => (some name, 1)
  | none =>
    match recipeIngredients.find? (fun name =>
        isSubstringOf (normalizeIngredientName target) (normalizeIngredientName name) ||
        isSubstringOf (normalizeIngredientName name) (normalizeIngredientName target)) with
    | some name => (some name, mkRat 9 10)
    | none =>
      match bestCandidateClaim (normalizeIngredientName target) recipeIngredients with
      | (some name, score) =>
        if mkRat 72 100 ≤ score then (some name, round4 score) else (none, 0)
      | (none, _) => (none, 0)

/-! ### Bounds on the matcher scores -/

theorem foldl_preserve {α β : Type _} (P : β → Prop) (f : β → α → β) :
    ∀ (l : List α) (b : β), P b → (∀ b a, a ∈ l → P b → P (f b a)) →
      P (l.foldl f b) := by
  intro l
  induction l with
  | nil => intro b hb _; exact hb
  | cons x xs ih =>
    intro b hb hf
    rw [List.foldl_cons]
    exact ih _ (hf b x (List.mem_cons_self x xs) hb)
      (fun b a ha hb => hf b a (List.mem_cons_of_mem _ ha) hb)

theorem commonRun_le_left : ∀ a b : List Char, commonRun a b ≤ a.length := by
  intro a
  induction a with
  | nil => intro b; cases b <;> simp [commonRun]
  | cons c cs ih =>
    intro b
    cases b with
    | nil => simp [commonRun]
    | cons d ds =>
      by_cases h : c = d
      · simp only [commonRun, if_pos h, List.length_cons]
        exact Nat.succ_le_succ (ih ds)
      · simp [commonRun, if_neg h]

theorem commonRun_le_right : ∀ a b : List Char, commonRun a b ≤ b.length := by
  intro a
  induction a with
  | nil => intro b; cases b <;> simp [commonRun]
  | cons c cs ih =>
    intro b
    cases b with
    | nil => simp [commonRun]
    | cons d ds =>
      by_cases h : c = d
      · simp only [commonRun, if_pos h, List.length_cons]
        exact Nat.succ_le_succ (ih ds)
      · simp [commonRun, if_neg h]

theorem matchLen_le_left (a b : List Char) (i j ahi bhi : ℕ) :
    matchLen a b i j ahi bhi ≤ ahi - i := by
  have h := commonRun_le_left ((a.take ahi).drop i) ((b.take bhi).drop j)
  simp only [List.length_drop, List.length_take] at h
  exact le_trans h (by omega)

theorem matchLen_le_right (a b : List Char) (i j ahi bhi : ℕ) :
    matchLen a b i j ahi bhi ≤ bhi - j := by
  have h := commonRun_le_right ((a.take ahi).drop i) ((b.take bhi).drop j)
  simp only [List.length_drop, List.length_take] at h
  exact le_trans h (by omega)

theorem longestMatch_spec (a b : List Char) (alo ahi blo bhi : ℕ) :
    alo ≤ (longestMatch a b alo ahi blo bhi).1 ∧
    blo ≤ (longestMatch a b alo ahi blo bhi).2.1 ∧
    (longestMatch a b alo ahi blo bhi).2.2 ≤ ahi - (longestMatch a b alo ahi blo bhi).1 ∧
    (longestMatch a b alo ahi blo bhi).2.2 ≤ bhi - (longestMatch a b alo ahi blo bhi).2.1 := by
  unfold longestMatch
  apply foldl_preserve
    (P := fun best : ℕ × ℕ × ℕ =>
      alo ≤ best.1 ∧ blo ≤ best.2.1 ∧ best.2.2 ≤ ahi - best.1 ∧ best.2.2 ≤ bhi - best.2.1)
  · exact ⟨le_refl _, le_refl _, Nat.zero_le _, Nat.zero_le _⟩
  · intro best i hi hbest
    apply foldl_preserve
      (P := fun best : ℕ × ℕ × ℕ =>
        alo ≤ best.1 ∧ blo ≤ best.2.1 ∧ best.2.2 ≤ ahi - best.1 ∧ best.2.2 ≤ bhi - best.2.1)
    · exact hbest
    · intro best' j hj hbest'
      by_cases h : best'.2.2 < matchLen a b i j ahi bhi
      · rw [if_pos h]
        have hi' : alo ≤ i := (List.mem_range'_1.mp hi).1
        have hj' : blo ≤ j := (List.mem_range'_1.mp hj).1
        exact ⟨hi', hj', matchLen_le_left a b i j ahi bhi, matchLen_le_right a b i j ahi bhi⟩
      · rw [if_neg h]
        exact hbest'

theorem totalMatched_le_left :
    ∀ (fuel : ℕ) (a b : List Char) (alo ahi blo bhi : ℕ),
      totalMatched fuel a b alo ahi blo bhi ≤ ahi - alo := by
  intro fuel
  induction fuel with
  | zero => intro a b alo ahi blo bhi; simp [totalMatched]
  | succ n ih =>
    intro a b alo ahi blo bhi
    obtain ⟨hi, hj, hk1, hk2⟩ := longestMatch_spec a b alo ahi blo bhi
    rcases hlm : longestMatch a b alo ahi blo bhi with ⟨i, j, k⟩
    rw [hlm] at hi hj hk1 hk2
    simp only [totalMatched, hlm]
    by_cases hk : k = 0
    · rw [if_pos hk]; exact Nat.zero_le _
    · rw [if_neg hk]
      have h1 := ih a b alo i blo j
      have h2 := ih a b (i + k) ahi (j + k) bhi
      simp only at hi hj hk1 hk2
      omega

theorem totalMatched_le_right :
    ∀ (fuel : ℕ) (a b : List Char) (alo ahi blo bhi : ℕ),
      totalMatched fuel a b alo ahi blo bhi ≤ bhi - blo := by
  intro fuel
  induction fuel with
  | zero => intro a b alo ahi blo bhi; simp [totalMatched]
  | succ n ih =>
    intro a b alo ahi blo bhi
    obtain ⟨hi, hj, hk1, hk2⟩ := longestMatch_spec a b alo ahi blo bhi
    rcases hlm : longestMatch a b alo ahi blo bhi with ⟨i, j, k⟩
    rw [hlm] at hi hj hk1 hk2
    simp only [totalMatched, hlm]
    by_cases hk : k = 0
    · rw [if_pos hk]; exact Nat.zero_le _
    · rw [if_neg hk]
      have h1 := ih a b alo i blo j
      have h2 := ih a b (i + k) ahi (j + k) bhi
      simp only at hi hj hk1 hk2
      omega

theorem sequenceScore_nonneg (a b : String) : 0 ≤ sequenceScore a b := by
  unfold sequenceScore
  split_ifs
  · norm_num
  · exact mkRat_natCast_nonneg _ _

theorem sequenceScore_le_one (a b : String) : sequenceScore a b ≤ 1 := by
  unfold sequenceScore
  split_ifs with h
  · exact le_refl 1
  · apply mkRat_natCast_le_one
    · have h1 := totalMatched_le_left (a.data.length + 1) a.data b.data
        0 a.data.length 0 b.data.length
      have h2 := totalMatched_le_right (a.data.length + 1) a.data b.data
        0 a.data.length 0 b.data.length
      omega
    · omega

theorem tokenScore_nonneg (t c : String) : 0 ≤ tokenScore t c :=
  mkRat_natCast_nonneg _ _

theorem tokenScore_le_one (t c : String) : tokenScore t c ≤ 1 := by
  apply mkRat_natCast_le_one
  · exact le_trans (Finset.card_le_card Finset.inter_subset_left)
      (le_trans (le_max_left _ _) (le_max_left _ _))
  · omega

theorem blendScore_nonneg (t c : String) : 0 ≤ blendScore t c :=
  le_trans (tokenScore_nonneg t c) (le_max_left _ _)

theorem blendScore_le_one (t c : String) : blendScore t c ≤ 1 :=
  max_le (tokenScore_le_one t c) (sequenceScore_le_one t c)

/-! ### Characterizing the tier-3/4 accumulation -/

theorem bestCandidate_fold_cases (targetNorm : String) :
    ∀ (l : List String) (acc : Option String × ℚ),
      l.foldl (bestCandidateStep targetNorm) acc = acc ∨
      ∃ name ∈ l, l.foldl (bestCandidateStep targetNorm) acc =
        (some name, blendScore targetNorm (normalizeIngredientName name)) := by
  intro l
  induction l with
  | nil => intro acc; left; rfl
  | cons x xs ih =>
    intro acc
    rw [List.foldl_cons]
    rcases ih (bestCandidateStep targetNorm acc x) with h | ⟨name, hmem, h⟩
    · rw [h]
      unfold bestCandidateStep
      split_ifs with h1 h2
      · left; rfl
      · right; exact ⟨x, List.mem_cons_self x xs, rfl⟩
      · left; rfl
    · right; exact ⟨name, List.mem_cons_of_mem _ hmem, h⟩

theorem bestCandidateClaim_fold_cases (targetNorm : String) :
    ∀ (l : List String) (acc : Option String × ℚ),
      l.foldl (bestCandidateStepClaim targetNorm) acc = acc ∨
      ∃ name ∈ l, l.foldl (bestCandidateStepClaim targetNorm) acc =
        (some name, blendScore targetNorm (normalizeIngredientName name)) := by
  intro l
  induction l with
  | nil => intro acc; left; rfl
  | cons x xs ih =>
    intro acc
    rw [List.foldl_cons]
    rcases ih (bestCandidateStepClaim targetNorm acc x) with h | ⟨name, hmem, h⟩
    · rw [h]
      unfold bestCandidateStepClaim
      split_ifs with h1
      · right; exact ⟨x, List.mem_cons_self x xs, rfl⟩
      · left; rfl
    · right; exact ⟨name, List.mem_cons_of_mem _ hmem, h⟩

theorem hasSub_nil (l : List Char) : hasSub [] l = true := by
  cases l <;> simp [hasSub, startsWithChars, List.isEmpty]

theorem bestCandidate_eq_claim_fold (targetNorm : String) :
    ∀ (l : List String), (∀ name ∈ l, normalizeIngredientName name ≠ "") →
      ∀ acc, l.foldl (bestCandidateStep targetNorm) acc =
        l.foldl (bestCandidateStepClaim targetNorm) acc := by
  intro l
  induction l with
  | nil => intro _ acc; rfl
  | cons x xs ih =>
    intro hl acc
    rw [List.foldl_cons, List.foldl_cons]
    have hx : normalizeIngredientName x ≠ "" := hl x (List.mem_cons_self x xs)
    have hstep : bestCandidateStep targetNorm acc x = bestCandidateStepClaim targetNorm acc x := by
      unfold bestCandidateStep bestCandidateStepClaim
      rw [if_neg hx]
    rw [hstep]
    exact ih (fun n hn => hl n (List.mem_cons_of_mem _ hn)) _

/-! ### Claims C1, C7, C10 about the matcher -/

/-- C10: for every target string and candidate list, the matcher returns
either `(none, 0)` — in particular whenever the normalized target is
empty — or a pair `(some name, q)` with `name` an element of the candidate
list verbatim and `q ∈ [0.72, 1]`. -/
theorem claim_C10_matcher_invariant (target : String) (recipeIngredients : List String) :
    (normalizeIngredientName target = "" →
      matchRecipeIngredient target recipeIngredients = (none, 0)) ∧
    (matchRecipeIngredient target recipeIngredients = (none, 0) ∨
      ∃ name ∈ recipeIngredients, ∃ q : ℚ,
        matchRecipeIngredient target recipeIngredients = (some name, q) ∧
        mkRat 72 100 ≤ q ∧ q ≤ 1) := by
  constructor
  · intro h
    unfold matchRecipeIngredient
    rw [if_pos h]
  · unfold matchRecipeIngredient
    by_cases hguard : normalizeIngredientName target = ""
    · rw [if_pos hguard]; left; rfl
    · rw [if_neg hguard]
      cases h1 : recipeIngredients.find?
          (fun name => normalizeIngredientName name == normalizeIngredientName target) with
      | some name =>
        right
        exact ⟨name, List.mem_of_find?_eq_some h1, 1, rfl, by decide, le_refl 1⟩
      | none =>
        cases h2 : recipeIngredients.find? (fun name =>
            isSubstringOf (normalizeIngredientName target) (normalizeIngredientName name) ||
            isSubstringOf (normalizeIngredientName name) (normalizeIngredientName target)) with
        | some name =>
          right
          exact ⟨name, List.mem_of_find?_eq_some h2, mkRat 9 10, rfl, by decide, by decide⟩
        | none =>
          rcases bestCandidate_fold_cases (normalizeIngredientName target)
              recipeIngredients (none, 0) with h3 | ⟨name, hmem, h3⟩
          · rw [show bestCandidate (normalizeIngredientName target) recipeIngredients =
                ((none : Option String), (0 : ℚ)) from h3]
            left; rfl
          · rw [show bestCandidate (normalizeIngredientName target) recipeIngredients =
                (some name, blendScore (normalizeIngredientName target)
                  (normalizeIngredientName name)) from h3]
            dsimp only
            by_cases h4 : name ≠ "" ∧ mkRat 72 100 ≤
                blendScore (normalizeIngredientName target) (normalizeIngredientName name)
            · right
              refine ⟨name, hmem,
                round4 (blendScore (normalizeIngredientName target)
                  (normalizeIngredientName name)), ?_, ?_, ?_⟩
              · rw [if_pos h4]
              · exact round4_ge_threshold _ h4.2
              · exact round4_le_one _ (blendScore_le_one _ _)
            · left
              rw [if_neg h4]

/-- Witness for C10 at a concrete input with an empty normalized target. -/
theorem claim_C10_matcher_invariant_witness :
    matchRecipeIngredient "!!!" ["ginger"] = (none, 0) :=
  (claim_C10_matcher_invariant "!!!" ["ginger"]).1 (by decide)

/-- C1 counterexample: for target `"!!!"` (whose normalized form is empty,
equal to the normalized form of candidate `"???"`), the claimed tier-1 rule
would return `("???", 1.0)`, but the code returns `(None, 0.0)` because of
its guard on an empty normalized target. -/
theorem claim_C1_counterexample :
    matchRecipeIngredient "!!!" ["???"] = (none, 0) ∧
    specMatchClaim "!!!" ["???"] = (some "???", 1) := by
  constructor <;> decide

/-- C1 (amended): provided the normalized target is nonempty,
`_match_recipe_ingredient` is exactly the four-tier procedure the claim
describes. -/
theorem claim_C1_tiered_matcher (target : String) (recipeIngredients : List String)
    (h : normalizeIngredientName target ≠ "") :
    matchRecipeIngredient target recipeIngredients =
      specMatchClaim target recipeIngredients := by
  unfold matchRecipeIngredient specMatchClaim
  rw [if_neg h]
  cases h1 : recipeIngredients.find?
      (fun name => normalizeIngredientName name == normalizeIngredientName target) with
  | some name => rfl
  | none =>
    cases h2 : recipeIngredients.find? (fun name =>
        isSubstringOf (normalizeIngredientName target) (normalizeIngredientName name) ||
        isSubstringOf (normalizeIngredientName name) (normalizeIngredientName target)) with
    | some name => rfl
    | none =>
      have hl : ∀ name ∈ recipeIngredients, normalizeIngredientName name ≠ "" := by
        intro name hn he
        have hfalse := List.find?_eq_none.mp h2 name hn
        apply hfalse
        rw [Bool.or_eq_true]
        right
        rw [he]
        exact hasSub_nil _
      have hfold : bestCandidate (normalizeIngredientName target) recipeIngredients =
          bestCandidateClaim (normalizeIngredientName target) recipeIngredients :=
        bestCandidate_eq_claim_fold (normalizeIngredientName target) recipeIngredients hl _
      rw [hfold]
      rcases bestCandidateClaim_fold_cases (normalizeIngredientName target)
          recipeIngredients (none, 0) with h3 | ⟨name, hmem, h3⟩
      · rw [show bestCandidateClaim (normalizeIngredientName target) recipeIngredients =
            ((none : Option String), (0 : ℚ)) from h3]
      · rw [show bestCandidateClaim (normalizeIngredientName target) recipeIngredients =
            (some name, blendScore (normalizeIngredientName target)
              (normalizeIngredientName name)) from h3]
        dsimp only
        have hne : name ≠ "" := by
          intro he
          exact hl name hmem (by rw [he]; decide)
        by_cases h4 : mkRat 72 100 ≤
            blendScore (normalizeIngredientName target) (normalizeIngredientName name)
        · rw [if_pos ⟨hne, h4⟩, if_pos h4]
        · rw [if_neg (fun hc => h4 hc.2), if_neg h4]

/-- Witness for C1 (amended) at a concrete input that resolves at tier 1. -/
theorem claim_C1_tiered_matcher_witness :
    normalizeIngredientName "Ginger" ≠ "" ∧
    matchRecipeIngredient "Ginger" ["ginger", "garlic"] =
      specMatchClaim "Ginger" ["ginger", "garlic"] :=
  ⟨by decide, claim_C1_tiered_matcher "Ginger" ["ginger", "garlic"] (by decide)⟩

/-- C7 counterexample: the claimed call does *not* return confidence 0.9 —
neither normalized name is a substring of the other, so tier 2 never fires. -/
theorem claim_C7_counterexample :
    (matchRecipeIngredient "fresh ginger" ["ginger root", "garlic"]).2 ≠ mkRat 9 10 := by
  decide

/-- C7 (amended): `match("fresh ginger", ["ginger root", "garlic"])` returns
`(None, 0.0)`: neither normalized name contains the other, and the best
blended score is `12/23 ≈ 0.5217`, below the `0.72` threshold. -/
theorem claim_C7_matcher_below_threshold :
    matchRecipeIngredient "fresh ginger" ["ginger root", "garlic"] = (none, 0) ∧
    isSubstringOf (normalizeIngredientName "fresh ginger")
      (normalizeIngredientName "ginger root") = false ∧
    isSubstringOf (normalizeIngredientName "ginger root")
      (normalizeIngredientName "fresh ginger") = false ∧
    blendScore (normalizeIngredientName "fresh ginger")
      (normalizeIngredientName "ginger root") = mkRat 12 23 ∧
    (mkRat 12 23 : ℚ) < mkRat 72 100 := by
  refine ⟨by decide, by decide, by decide, by decide, by decide⟩

/-! ### `utils/flavour.py`: payloads, the candidate extractor, profiles -/

/-- JSON-like upstream payloads: mapping / sequence / string / other
(numbers, booleans and null are never inspected beyond `isinstance`
checks, so they collapse into `other`). -/
inductive Json where
  | str : String → Json
  | arr : List Json → Json
  | obj : List (String × Json) → Json
  | other : Json

/-- Python `dict.get(key)` (keys of a Python dict are unique; the list is
searched in insertion order). -/
def objGet (j : Json) (key : String) : Option Json :=
  match j with
  | Json.obj fields => (fields.find? (fun kv => kv.1 == key)).map (fun kv => kv.2)
  | _ => none

/-- The "name-like" keys collected by `extract_pairing_candidates`. -/
def preferredKeys : List String :=
  ["food_pair", "foodPair", "ingredient", "pairing", "pairings", "name",
   "entityName", "commonName", "common_name", "aliasReadable", "entityAliasReadable"]

mutual
/-- The recursive `walk` of `extract_pairing_candidates`: nothing is
collected at a bare string or scalar; mappings contribute their preferred
keys' direct string (or list-of-strings) values and are then walked
value by value in insertion order; sequences are walked element-wise. -/
def collectStrings : Json → List String
  | Json.obj fields => collectFields fields
  | Json.arr items => collectItems items
  | Json.str _ => []
  | Json.other => []

def collectFields : List (String × Json) → List String
  | [] => []
  | (key, value) :: rest =>
    (if key ∈ preferredKeys then
      (match value with
       | Json.str s => [s]
       | Json.arr items => items.filterMap (fun item =>
           match item with
           | Json.str s => some s
           | _ => none)
       | _ => [])
     else []) ++ collectStrings value ++ collectFields rest

def collectItems : List Json → List String
  | [] => []
  | item :: rest => collectStrings item ++ collectItems rest
end

/-- Embedding of `re.split(r"\|\||,", value)`: split at `||` (tried first at each
position) or `,`. -/
def splitPairsAux : List Char → List Char → List String
  | [], acc => [String.mk acc.reverse]
  | '|' :: '|' :: rest, acc => String.mk acc.reverse :: splitPairsAux rest []
  | ',' :: rest, acc => String.mk acc.reverse :: splitPairsAux rest []
  | c :: rest, acc => splitPairsAux rest (c :: acc)

def splitPairs (value : String) : List String := splitPairsAux value.data []

/-- The `seen`/`parsed` update for one accepted candidate: Python's `seen`
set is the first component (membership is all that is used), `parsed`
the second. -/
def dedupStep (acc : List String × List String) (c : String) :
    List String × List String :=
  if c ∈ acc.1 then acc else (c :: acc.1, acc.2 ++ [c])

/-- The body of the candidate loop of `extract_pairing_candidates` for one
chunk: clean it (`chunk.strip().lower()`), apply the four rejection rules
(`continue`), then the dedup-append. -/
def chunkStep (sourceNormalized : String) (acc : List String × List String)
    (chunk : String) : List String × List String :=
  if pyLower (pyStrip chunk) = "" then acc
  else if pyLower (pyStrip chunk) = sourceNormalized then acc
  else if isSubstringOf "http://" (pyLower (pyStrip chunk)) ||
          isSubstringOf "https://" (pyLower (pyStrip chunk)) then acc
  else if 80 < (pyLower (pyStrip chunk)).data.length then acc
  else dedupStep acc (pyLower (pyStrip chunk))

/-- Processing of one raw collected string: split it and run the chunk loop. -/
def extractStep (sourceNormalized : String) (acc : List String × List String)
    (value : String) : List String × List String :=
  (splitPairs value).foldl (chunkStep sourceNormalized) acc

/-- Embedding of `extract_pairing_candidates` from `utils/flavour.py`. -/
def extractPairingCandidates (payload : Json) (sourceIngredient : String) :
    List String :=
  ((collectStrings payload).foldl
    (extractStep (pyLower (pyStrip sourceIngredient))) ([], [])).2

/-- A fragment survives the extractor's four rejection rules (claim C4):
nonempty, differs from the normalized source, carries no URL marker, and
is at most 80 characters long. -/
def acceptsCandidate (sourceNormalized candidate : String) : Bool :=
  !(candidate == "") && !(candidate == sourceNormalized) &&
  !(isSubstringOf "http://" candidate || isSubstringOf "https://" candidate) &&
  !(decide (80 < candidate.data.length))

def dedupFirstAux : List String → List String → List String
  | _, [] => []
  | seen, x :: xs =>
    if x ∈ seen then dedupFirstAux seen xs
    else x :: dedupFirstAux (x :: seen) xs

/-- First-seen-order deduplication, as claim C4 words it. -/
def dedupFirst (l : List String) : List String := dedupFirstAux [] l

/-- The candidate extractor as claim C4 describes it, with the one amendment
that the source ingredient is trimmed as well as lowercased: split every
collected raw string on `||` or `,`, lowercase and trim each fragment, keep
exactly the fragments that pass the four rejection rules, and deduplicate
preserving first-seen order. -/
def claimExtract (payload : Json) (sourceIngredient : String) : List String :=
  dedupFirst (((((collectStrings payload).map splitPairs).flatten).map
    (fun chunk => pyLower (pyStrip chunk))).filter
      (fun candidate => acceptsCandidate (pyLower (pyStrip sourceIngredient)) candidate))

theorem chunkStep_eq (src : String) (acc : List String × List String) (chunk : String) :
    chunkStep src acc chunk =
      if acceptsCandidate src (pyLower (pyStrip chunk)) then
        dedupStep acc (pyLower (pyStrip chunk))
      else acc := by
  unfold chunkStep acceptsCandidate
  by_cases h1 : pyLower (pyStrip chunk) = ""
  · simp [h1]
  · rw [if_neg h1]
    by_cases h2 : pyLower (pyStrip chunk) = src
    · simp [h1, h2]
    · rw [if_neg h2]
      by_cases h3 : (isSubstringOf "http://" (pyLower (pyStrip chunk)) ||
          isSubstringOf "https://" (pyLower (pyStrip chunk))) = true
      · simp [h1, h2, h3]
      · rw [if_neg h3]
        by_cases h4 : 80 < (pyLower (pyStrip chunk)).data.length
        · rw [if_pos h4]
          have h4' : ¬ (pyLower (pyStrip chunk)).length ≤ 80 := Nat.not_le.mpr h4
          simp [h1, h2, h3, h4']
        · rw [if_neg h4]
          have h4' : (pyLower (pyStrip chunk)).length ≤ 80 := Nat.not_lt.mp h4
          simp [h1, h2, h3, h4']

theorem foldl_chunkStep_eq (src : String) :
    ∀ (chunks : List String) (acc : List String × List String),
      chunks.foldl (chunkStep src) acc =
      ((chunks.map (fun chunk => pyLower (pyStrip chunk))).filter
        (fun c => acceptsCandidate src c)).foldl dedupStep acc := by
  intro chunks
  induction chunks with
  | nil => intro acc; rfl
  | cons x xs ih =>
    intro acc
    rw [List.foldl_cons, List.map_cons, chunkStep_eq]
    by_cases h : acceptsCandidate src (pyLower (pyStrip x)) = true
    · rw [if_pos h, List.filter_cons_of_pos h, List.foldl_cons]
      exact ih _
    · rw [if_neg h, List.filter_cons_of_neg (by simpa using h)]
      exact ih acc

theorem foldl_extractStep_eq (src : String) :
    ∀ (values : List String) (acc : List String × List String),
      values.foldl (extractStep src) acc =
      ((((values.map splitPairs).flatten).map (fun chunk => pyLower (pyStrip chunk))).filter
        (fun c => acceptsCandidate src c)).foldl dedupStep acc := by
  intro values
  induction values with
  | nil => intro acc; rfl
  | cons v vs ih =>
    intro acc
    rw [List.foldl_cons, List.map_cons, List.flatten_cons, List.map_append,
        List.filter_append, List.foldl_append]
    rw [show extractStep src acc v =
        (((splitPairs v).map (fun chunk => pyLower (pyStrip chunk))).filter
          (fun c => acceptsCandidate src c)).foldl dedupStep acc from
      foldl_chunkStep_eq src (splitPairs v) acc]
    exact ih _

theorem foldl_dedupStep_snd :
    ∀ (l : List String) (seen parsed : List String),
      (l.foldl dedupStep (seen, parsed)).2 = parsed ++ dedupFirstAux seen l := by
  intro l
  induction l with
  | nil => intro seen parsed; simp [dedupFirstAux]
  | cons x xs ih =>
    intro seen parsed
    rw [List.foldl_cons]
    rw [show dedupStep (seen, parsed) x =
        if x ∈ seen then (seen, parsed) else (x :: seen, parsed ++ [x]) from rfl]
    rw [show dedupFirstAux seen (x :: xs) =
        if x ∈ seen then dedupFirstAux seen xs
        else x :: dedupFirstAux (x :: seen) xs from rfl]
    by_cases h : x ∈ seen
    · rw [if_pos h, if_pos h]
      exact ih seen parsed
    · rw [if_neg h, if_neg h]
      rw [ih (x :: seen) (parsed ++ [x])]
      simp

/-- C4 counterexample: with source `" ginger"` (leading space), the
fragment `"ginger"` passes all four of the claim's rejection rules against
the *lowercased* source `" ginger"` (it differs from it), yet the code
rejects it — the source ingredient is trimmed as well as lowercased before
the comparison. -/
theorem claim_C4_counterexample :
    extractPairingCandidates (Json.obj [("name", Json.str "ginger")]) " ginger" = [] ∧
    acceptsCandidate (pyLower " ginger") "ginger" = true := by
  constructor
  · rfl
  · rfl

/-- C4 (amended, source compared after trim+lowercase): the extractor is
exactly the split / clean / filter / first-seen-dedup pipeline, and on the
spec's concrete example rows with source `"ginger"` it yields exactly
`["galangal"]`. -/
theorem claim_C4_extractor_pipeline (payload : Json) (sourceIngredient : String) :
    (extractPairingCandidates payload sourceIngredient =
      claimExtract payload sourceIngredient) ∧
    extractPairingCandidates (Json.obj [("data", Json.arr
      [Json.obj [("entityName", Json.str "Ginger")],
       Json.obj [("food_pair", Json.str "Ginger, Galangal")],
       Json.obj [("name", Json.str "http://cosylab.iiitd.edu.in/flavordb")]])])
      "ginger" = ["galangal"] := by
  constructor
  · unfold extractPairingCandidates claimExtract
    rw [foldl_extractStep_eq, foldl_dedupStep_snd]
    rfl
  · rfl

/-! ### `utils/flavour.py`: flavor profiles (fallback path) -/

/-- Embedding of `FlavorDBClientError`, carrying its HTTP status code. -/
structure FlavorDBClientError where
  message : String
  status_code : ℕ
deriving DecidableEq

/-- Embedding of `re.split(r"[;,]", value)`: split at every `;` or `,`. -/
def splitSemiCommaAux : List Char → List Char → List (List Char)
  | [], acc => [acc.reverse]
  | c :: rest, acc =>
    if c = ';' ∨ c = ',' then acc.reverse :: splitSemiCommaAux rest []
    else splitSemiCommaAux rest (c :: acc)

def splitSemiComma (l : List Char) : List (List Char) := splitSemiCommaAux l []

/-- Embedding of `_profile_tokens_from_value`: a list keeps its string elements; a string
is split on `;`/`,` with each piece stripped and empties dropped; anything
else (including an absent field) contributes nothing. -/
def profileTokensFromValue : Option Json → List String
  | some (Json.arr items) => items.filterMap (fun item =>
      match item with
      | Json.str s => some s
      | _ => none)
  | some (Json.str s) =>
      ((splitSemiComma s.data).map (fun w => String.mk (stripChars w))).filter (· ≠ "")
  | _ => []

/-- Embedding of `_extract_items`: the first of `data` / `content` / `results` (also
under a nested `payload` mapping) that is a list, keeping only its mapping
items. -/
def firstJsonList : List (Option Json) → Option (List Json)
  | [] => none
  | some (Json.arr items) :: _ => some items
  | _ :: rest => firstJsonList rest

def extractItems (payload : Json) : List Json :=
  match firstJsonList
      ([objGet payload "data", objGet payload "content", objGet payload "results"] ++
       (match objGet payload "payload" with
        | some (Json.obj fields) =>
            [objGet (Json.obj fields) "data", objGet (Json.obj fields) "content",
             objGet (Json.obj fields) "results"]
        | _ => [])) with
  | some items => items.filter (fun item =>
      match item with
      | Json.obj _ => true
      | _ => false)
  | none => []

/-- The tokens read for one molecule record in
`get_flavor_profile_by_ingredient`: the source `extend`s the token list
from *all four* accepted field names of the record. -/
def itemTokens (item : Json) : List String :=
  profileTokensFromValue (objGet item "flavorProfile") ++
  profileTokensFromValue (objGet item "flavor_profile") ++
  profileTokensFromValue (objGet item "fooddb_flavor_profile") ++
  profileTokensFromValue (objGet item "fema_flavor_profile")

/-- Python `set.add` on an insertion-ordered duplicate-free list model of a
set (the profile is sorted before it is returned, so insertion order never
shows in the result). -/
def setAdd (s : List String) (x : String) : List String :=
  if x ∈ s then s else s ++ [x]

/-- Embedding of `cleaned = token.strip().lower(); if cleaned: profile.add(cleaned)`. -/
def addCleanToken (profile : List String) (tok : String) : List String :=
  if pyLower (pyStrip tok) = "" then profile else setAdd profile (pyLower (pyStrip tok))

def addItemTokens (profile : List String) (item : Json) : List String :=
  (itemTokens item).foldl addCleanToken profile

/-- The `profile` set accumulated over all extracted molecule records. -/
def moleculeProfile (data : Json) : List String :=
  (extractItems data).foldl addItemTokens []

/-- Python string comparison (code-point lexicographic) as a Bool. -/
def lexLeChars : List Char → List Char → Bool
  | [], _ => true
  | _ :: _, [] => false
  | a :: as, b :: bs =>
    if a.toNat < b.toNat then true
    else if b.toNat < a.toNat then false
    else lexLeChars as bs

def insertSortedString (x : String) : List String → List String
  | [] => [x]
  | y :: ys =>
    if lexLeChars x.data y.data then x :: y :: ys else y :: insertSortedString x ys

/-- Python `sorted` on a list of strings. -/
def sortStrings : List String → List String
  | [] => []
  | x :: xs => insertSortedString x (sortStrings xs)

/-- The tokens one pairing row contributes in `_profile_from_food_pairings`:
`entity:<entityName>` and `category:<category>`, each stripped and
lowercased, for nonblank string fields of a mapping row (a non-mapping row
has no fields and contributes nothing, as the `isinstance` check skips it). -/
def rowSignature (row : Json) : List String :=
  (match objGet row "entityName" with
   | some (Json.str s) =>
     if pyStrip s ≠ "" then ["entity:" ++ pyLower (pyStrip s)] else []
   | _ => []) ++
  (match objGet row "category" with
   | some (Json.str s) =>
     if pyStrip s ≠ "" then ["category:" ++ pyLower (pyStrip s)] else []
   | _ => [])

/-- Embedding of `_profile_from_food_pairings`, parameterized by the pairing query's
outcome: a 404 yields the empty profile, any other error propagates; on
success the `topSimilarEntities` rows are scanned into a sorted signature
set (absent or non-list rows give the empty profile). -/
def profileFromFoodPairings (pairRes : Except FlavorDBClientError Json) :
    Except FlavorDBClientError (List String) :=
  match pairRes with
  | Except.error e => if e.status_code = 404 then Except.ok [] else Except.error e
  | Except.ok payload =>
    match objGet payload "topSimilarEntities" with
    | some (Json.arr rows) =>
        Except.ok (sortStrings
          (rows.foldl (fun sig row => (rowSignature row).foldl setAdd sig) []))
    | _ => Except.ok []

/-- Embedding of `get_flavor_profile_by_ingredient`, parameterized by the outcome of the
molecule query and (for the fallback path) of the pairing query.  A 400 or
404 from the molecule query, or a molecule profile with zero tokens, falls
back to the pairing-derived signature. -/
def getFlavorProfileByIngredient (molRes pairRes : Except FlavorDBClientError Json) :
    Except FlavorDBClientError (List String) :=
  match molRes with
  | Except.error e =>
    if e.status_code = 400 ∨ e.status_code = 404 then profileFromFoodPairings pairRes
    else Except.error e
  | Except.ok data =>
    if moleculeProfile data ≠ [] then Except.ok (sortStrings (moleculeProfile data))
    else profileFromFoodPairings pairRes

/-- C5: the fallback structure of profile building — (i) a 400/404 from the
molecule query falls back to the pairing-derived profile, (ii) so do zero
molecule tokens, (iii) a 404 ("not found") from the pairing query itself
yields the empty profile rather than an error, and (iv) a pairing row emits
`entity:<name>` and `category:<category>` lowercased. -/
theorem claim_C5_profile_fallback :
    (∀ (e : FlavorDBClientError) (pairRes : Except FlavorDBClientError Json),
      e.status_code = 400 ∨ e.status_code = 404 →
      getFlavorProfileByIngredient (Except.error e) pairRes =
        profileFromFoodPairings pairRes) ∧
    (∀ (data : Json) (pairRes : Except FlavorDBClientError Json),
      moleculeProfile data = [] →
      getFlavorProfileByIngredient (Except.ok data) pairRes =
        profileFromFoodPairings pairRes) ∧
    (∀ e : FlavorDBClientError, e.status_code = 404 →
      profileFromFoodPairings (Except.error e) = Except.ok []) ∧
    (∀ s c : String, pyStrip s ≠ "" → pyStrip c ≠ "" →
      rowSignature (Json.obj [("entityName", Json.str s), ("category", Json.str c)]) =
        ["entity:" ++ pyLower (pyStrip s), "category:" ++ pyLower (pyStrip c)]) := by
  refine ⟨?_, ?_, ?_, ?_⟩
  · intro e pr h
    show (if e.status_code = 400 ∨ e.status_code = 404
      then profileFromFoodPairings pr else Except.error e) = _
    rw [if_pos h]
  · intro data pr h
    show (if moleculeProfile data ≠ [] then Except.ok (sortStrings (moleculeProfile data))
      else profileFromFoodPairings pr) = _
    rw [if_neg (fun hc => hc h)]
  · intro e h
    show (if e.status_code = 404 then Except.ok [] else Except.error e) = _
    rw [if_pos h]
  · intro s c hs hc
    show (if pyStrip s ≠ "" then ["entity:" ++ pyLower (pyStrip s)] else []) ++
         (if pyStrip c ≠ "" then ["category:" ++ pyLower (pyStrip c)] else []) = _
    rw [if_pos hs, if_pos hc]
    rfl

/-- Witness for C5, instantiating all four parts at concrete inputs. -/
theorem claim_C5_profile_fallback_witness :
    getFlavorProfileByIngredient (Except.error ⟨"not found", 404⟩) (Except.ok Json.other) =
      profileFromFoodPairings (Except.ok Json.other) ∧
    getFlavorProfileByIngredient (Except.ok Json.other) (Except.error ⟨"x", 404⟩) =
      profileFromFoodPairings (Except.error ⟨"x", 404⟩) ∧
    profileFromFoodPairings (Except.error ⟨"x", 404⟩) = Except.ok [] ∧
    rowSignature (Json.obj [("entityName", Json.str "Ginger"),
      ("category", Json.str "spice")]) = ["entity:ginger", "category:spice"] := by
  refine ⟨claim_C5_profile_fallback.1 _ _ (Or.inr rfl),
          claim_C5_profile_fallback.2.1 _ _ rfl,
          claim_C5_profile_fallback.2.2.1 _ rfl, ?_⟩
  rw [claim_C5_profile_fallback.2.2.2 "Ginger" "spice" (by decide) (by decide)]
  rfl

/-! ### Claim C6: which alias fields contribute -/

theorem mem_setAdd_of_mem (s : List String) (x y : String) (h : y ∈ s) :
    y ∈ setAdd s x := by
  unfold setAdd
  split_ifs with hx
  · exact h
  · exact List.mem_append_left _ h

theorem self_mem_setAdd (s : List String) (x : String) : x ∈ setAdd s x := by
  unfold setAdd
  split_ifs with hx
  · exact hx
  · exact List.mem_append_right _ (List.mem_singleton.mpr rfl)

theorem mem_foldl_addCleanToken_mono :
    ∀ (toks : List String) (profile : List String) (y : String),
      y ∈ profile → y ∈ toks.foldl addCleanToken profile := by
  intro toks
  induction toks with
  | nil => intro profile y h; exact h
  | cons t ts ih =>
    intro profile y h
    rw [List.foldl_cons]
    apply ih
    unfold addCleanToken
    split_ifs
    · exact h
    · exact mem_setAdd_of_mem _ _ _ h

theorem mem_foldl_addCleanToken (toks : List String) (profile : List String)
    (tok : String) (htok : tok ∈ toks) (hne : pyLower (pyStrip tok) ≠ "") :
    pyLower (pyStrip tok) ∈ toks.foldl addCleanToken profile := by
  induction toks generalizing profile with
  | nil => cases htok
  | cons t ts ih =>
    rw [List.foldl_cons]
    rcases List.mem_cons.mp htok with heq | hmem
    · subst heq
      apply mem_foldl_addCleanToken_mono
      unfold addCleanToken
      rw [if_neg hne]
      exact self_mem_setAdd _ _
    · exact ih _ hmem

theorem mem_foldl_addItemTokens_mono :
    ∀ (items : List Json) (profile : List String) (y : String),
      y ∈ profile → y ∈ items.foldl addItemTokens profile := by
  intro items
  induction items with
  | nil => intro profile y h; exact h
  | cons it its ih =>
    intro profile y h
    rw [List.foldl_cons]
    exact ih _ _ (mem_foldl_addCleanToken_mono _ _ _ h)

theorem mem_foldl_addItemTokens :
    ∀ (items : List Json) (profile : List String) (item : Json) (tok : String),
      item ∈ items → tok ∈ itemTokens item → pyLower (pyStrip tok) ≠ "" →
      pyLower (pyStrip tok) ∈ items.foldl addItemTokens profile := by
  intro items
  induction items with
  | nil => intro _ _ _ h; cases h
  | cons it its ih =>
    intro profile item tok hmem htok hne
    rw [List.foldl_cons]
    rcases List.mem_cons.mp hmem with heq | hmem'
    · subst heq
      apply mem_foldl_addItemTokens_mono
      exact mem_foldl_addCleanToken _ _ _ htok hne
    · exact ih _ _ _ hmem' htok hne

/-- C6 (amended): the profile normalizer reads *all four* accepted alias
fields of every record and concatenates their tokens — every nonblank
cleaned token of any alias field of any extracted record, later aliases
included even when an earlier alias is present, ends up in the molecule
profile. -/
theorem claim_C6_all_alias_fields (data : Json) (item : Json) (tok : String)
    (hitem : item ∈ extractItems data) (htok : tok ∈ itemTokens item)
    (hne : pyLower (pyStrip tok) ≠ "") :
    pyLower (pyStrip tok) ∈ moleculeProfile data :=
  mem_foldl_addItemTokens (extractItems data) [] item tok hitem htok hne

/-- C6 counterexample: a record carrying both the first accepted alias
(`flavorProfile`, value `"sweet"`) and the last (`fema_flavor_profile`,
value `"bitter"`) produces the profile `["bitter", "sweet"]` — the later
alias field contributed its token even though an earlier alias field was
present, contradicting the claim that only the first present alias is read.
(The pairing argument is an unused 500 error, showing no fallback occurred.) -/
theorem claim_C6_counterexample :
    getFlavorProfileByIngredient
      (Except.ok (Json.obj [("data", Json.arr
        [Json.obj [("flavorProfile", Json.str "sweet"),
                   ("fema_flavor_profile", Json.str "bitter")]])]))
      (Except.error ⟨"unused", 500⟩) = Except.ok ["bitter", "sweet"] := rfl

/-- Witness for C6 (amended) at the counterexample's record: the token of the
last alias field is in the profile although the first alias is present. -/
theorem claim_C6_all_alias_fields_witness :
    pyLower (pyStrip "bitter") ∈ moleculeProfile (Json.obj [("data", Json.arr
      [Json.obj [("flavorProfile", Json.str "sweet"),
                 ("fema_flavor_profile", Json.str "bitter")]])]) :=
  claim_C6_all_alias_fields _
    (Json.obj [("flavorProfile", Json.str "sweet"),
               ("fema_flavor_profile", Json.str "bitter")])
    "bitter"
    (show _ ∈ [Json.obj [("flavorProfile", Json.str "sweet"),
      ("fema_flavor_profile", Json.str "bitter")]] from List.mem_singleton.mpr rfl)
    (show _ ∈ ["sweet", "bitter"] from by decide)
    (by decide)

/-! ### `utils/flavour.py`: credentials (claim C8) -/

/-- The hardcoded fallback token at the top of `utils/flavour.py`. -/
def DEFAULT_AUTH_TOKEN : String := "5GYS4ukGSZHEICP1lIOQBtzBLmFcDMlq279L2Y-GF159yn5M"

/-- Drop a leading case-insensitive `"bearer "` prefix from the stripped
token, re-stripping the remainder — the tail of `_get_auth_token_and_source`. -/
def dropBearer (cleaned : String) : String :=
  if startsWithChars "bearer ".data (pyLower cleaned).data then
    pyStrip (String.mk (cleaned.data.drop 7))
  else cleaned

/-- Embedding of `_get_auth_token_and_source`, parameterized by the process environment
(`env key = none` models an unset variable): the first candidate whose value
is truthy and nonblank wins, and the hardcoded `DEFAULT_AUTH_TOKEN` is the
final candidate. -/
def getAuthTokenAndSource (env : String → Option String) : String × String :=
  match ([("FLAVORDB_AUTH_TOKEN", env "FLAVORDB_AUTH_TOKEN"),
          ("FOODOSCOPE_API_KEY", env "FOODOSCOPE_API_KEY"),
          ("FLAVORDB_API_KEY", env "FLAVORDB_API_KEY"),
          ("AUTH_TOKEN", env "AUTH_TOKEN"),
          ("DEFAULT_AUTH_TOKEN", some DEFAULT_AUTH_TOKEN)] :
          List (String × Option String)).find? (fun kv =>
      match kv.2 with
      | some v => !(v == "") && !(pyStrip v == "")
      | none => false) with
  | some (key, some value) => (dropBearer (pyStrip value), key)
  | _ => ("", "")

/-- Embedding of `_build_headers`, parameterized by the environment: the 401
missing-credential error when the resolved token is empty, else the four
auth headers. -/
def buildHeaders (env : String → Option String) :
    Except FlavorDBClientError (List (String × String)) :=
  if (getAuthTokenAndSource env).1 = "" then
    Except.error
      { message := "Missing FlavorDB token. Set one of: FLAVORDB_AUTH_TOKEN, FOODOSCOPE_API_KEY, FLAVORDB_API_KEY, AUTH_TOKEN."
        status_code := 401 }
  else
    Except.ok
      [("Authorization", "Bearer " ++ (getAuthTokenAndSource env).1),
       ("X-API-Key", (getAuthTokenAndSource env).1),
       ("Content-Type", "application/json"),
       ("Accept", "application/json")]

/-- C8 is violated by the code: with *every* recognized environment variable
unset, `_get_auth_token_and_source` falls back to the hardcoded
`DEFAULT_AUTH_TOKEN`, and `_build_headers` succeeds with headers carrying
that baked-in token instead of failing with the 401 missing-credentials
misconfiguration error. -/
theorem claim_C8_hardcoded_fallback_token :
    getAuthTokenAndSource (fun _ => none) = (DEFAULT_AUTH_TOKEN, "DEFAULT_AUTH_TOKEN") ∧
    buildHeaders (fun _ => none) =
      Except.ok
        [("Authorization", "Bearer " ++ DEFAULT_AUTH_TOKEN),
         ("X-API-Key", DEFAULT_AUTH_TOKEN),
         ("Content-Type", "application/json"),
         ("Accept", "application/json")] := by
  constructor
  · rfl
  · rfl

/-! ### `_build_why_recommended` and `_rank_replacements` (main.py) -/

/-- One ranked candidate dictionary as built by `_rank_replacements`. -/
structure RankedEntry where
  ingredient : String
  similarity : SimilarityResult
  candidate_profile_size : ℕ
  why_recommended : String
deriving DecidableEq

/-- Python `", ".join(...)`. -/
def joinCommaSep : List String → String
  | [] => ""
  | [x] => x
  | x :: xs => x ++ ", " ++ joinCommaSep xs

/-- Rendering of a jaccard value inside the rationale string (Python's
float formatting is abstracted as the exact fraction; no claim depends on
the rendered text). -/
def ratRender (q : ℚ) : String := toString q.num ++ "/" ++ toString q.den

/-- Embedding of `_build_why_recommended` from `main.py`. -/
def buildWhyRecommended (similarity : SimilarityResult) : String :=
  if similarity.overlap_count ≤ 0 then
    "Low confidence: no shared flavor terms (Jaccard " ++
      ratRender similarity.jaccard ++ ")."
  else if similarity.overlap_terms ≠ [] then
    "Shared " ++ toString similarity.overlap_count ++ " flavor terms (Jaccard " ++
      ratRender similarity.jaccard ++ "), including: " ++
      joinCommaSep (similarity.overlap_terms.take 3) ++ "."
  else
    "Shared " ++ toString similarity.overlap_count ++ " flavor terms (Jaccard " ++
      ratRender similarity.jaccard ++ ")."

/-- Embedding of `skip_norm`: the normalized skip ingredient, `""` when absent. -/
def skipNormOf : Option String → String
  | some s => pyStripLower s
  | none => ""

/-- The candidate loop of `_rank_replacements`: skip the excluded name
(case-insensitively, when one is given), drop candidates whose profile
lookup raises (`lookup candidate = none`) or returns an empty profile,
and build the ranked dictionary for the survivors.  `lookup` stands for
`get_flavor_profile_by_ingredient`. -/
def buildEntries (lookup : String → Option (List String)) (targetProfile : List String)
    (candidatePool : List String) (skipIngredient : Option String) : List RankedEntry :=
  candidatePool.filterMap (fun candidate =>
    if skipNormOf skipIngredient ≠ "" ∧
        pyStripLower candidate = skipNormOf skipIngredient then none
    else
      match lookup candidate with
      | none => none
      | some candidateProfile =>
        if candidateProfile = [] then none
        else some
          { ingredient := candidate
            similarity := calculateSimilarity targetProfile candidateProfile
            candidate_profile_size := candidateProfile.length
            why_recommended :=
              buildWhyRecommended (calculateSimilarity targetProfile candidateProfile) })

/-- The sort key of `_rank_replacements`: `(jaccard, overlap_count)`. -/
def entryKey (e : RankedEntry) : ℚ × ℕ :=
  (e.similarity.jaccard, e.similarity.overlap_count)

/-- Ordering for the descending sort: `a` may precede `b` when it has a strictly greater key in the
lexicographic (jaccard, overlap_count) order, or exactly equal keys (ties
keep encounter order — the sort is stable). -/
def keyGe (a b : RankedEntry) : Prop :=
  (entryKey b).1 < (entryKey a).1 ∨
  ((entryKey a).1 = (entryKey b).1 ∧ (entryKey b).2 ≤ (entryKey a).2)

instance (a b : RankedEntry) : Decidable (keyGe a b) := by
  unfold keyGe
  infer_instance

def insertEntryDesc (x : RankedEntry) : List RankedEntry → List RankedEntry
  | [] => [x]
  | y :: ys => if keyGe x y then x :: y :: ys else y :: insertEntryDesc x ys

/-- Embedding of `ranked.sort(key=lambda x: (jaccard, overlap_count), reverse=True)`:
Python's stable descending sort (Timsort), abstracted as insertion sort —
any two stable sorts with the same ordering compute the same list. -/
def sortEntriesDesc : List RankedEntry → List RankedEntry
  | [] => []
  | x :: xs => insertEntryDesc x (sortEntriesDesc xs)

/-- Embedding of `_rank_replacements` from `main.py`. -/
def rankReplacements (lookup : String → Option (List String)) (targetProfile : List String)
    (candidatePool : List String) (skipIngredient : Option String) : List RankedEntry :=
  sortEntriesDesc (buildEntries lookup targetProfile candidatePool skipIngredient)

/-- The tail of `replace_in_recipe` (main.py): rank with the matched
ingredient skipped, then truncate to the caller-requested limit
(`ranked[: payload.limit]`). -/
def replaceInRecipeSuggestions (lookup : String → Option (List String))
    (targetProfile : List String) (candidatePool : List String)
    (matchedIngredient : String) (limit : ℕ) : List RankedEntry :=
  (rankReplacements lookup targetProfile candidatePool (some matchedIngredient)).take limit

theorem keyGe_total (a b : RankedEntry) : keyGe a b ∨ keyGe b a := by
  unfold keyGe
  rcases lt_trichotomy (entryKey a).1 (entryKey b).1 with h | h | h
  · right; left; exact h
  · rcases le_total (entryKey a).2 (entryKey b).2 with h2 | h2
    · right; right; exact ⟨h.symm, h2⟩
    · left; right; exact ⟨h, h2⟩
  · left; left; exact h

theorem keyGe_trans (a b c : RankedEntry) (hab : keyGe a b) (hbc : keyGe b c) :
    keyGe a c := by
  unfold keyGe at *
  rcases hab with h1 | ⟨h1, h1'⟩ <;> rcases hbc with h2 | ⟨h2, h2'⟩
  · left; exact lt_trans h2 h1
  · left; rw [← h2]; exact h1
  · left; rw [h1]; exact h2
  · right; exact ⟨h1.trans h2, le_trans h2' h1'⟩

theorem insertEntryDesc_cons (x y : RankedEntry) (ys : List RankedEntry) :
    insertEntryDesc x (y :: ys) =
      if keyGe x y then x :: y :: ys else y :: insertEntryDesc x ys := rfl

theorem mem_insertEntryDesc (x z : RankedEntry) :
    ∀ l, z ∈ insertEntryDesc x l ↔ z = x ∨ z ∈ l := by
  intro l
  induction l with
  | nil => simp [insertEntryDesc]
  | cons y ys ih =>
    rw [insertEntryDesc_cons]
    by_cases h : keyGe x y
    · rw [if_pos h]
      simp only [List.mem_cons]
      try tauto
    · rw [if_neg h]
      simp only [List.mem_cons, ih]
      try tauto

theorem pairwise_insertEntryDesc (x : RankedEntry) :
    ∀ l, l.Pairwise keyGe → (insertEntryDesc x l).Pairwise keyGe := by
  intro l
  induction l with
  | nil => intro _; exact List.pairwise_singleton _ _
  | cons y ys ih =>
    intro hp
    rcases List.pairwise_cons.mp hp with ⟨hy, hys⟩
    rw [insertEntryDesc_cons]
    by_cases h : keyGe x y
    · rw [if_pos h]
      apply List.pairwise_cons.mpr
      refine ⟨?_, hp⟩
      intro z hz
      rcases List.mem_cons.mp hz with heq | hz'
      · rw [heq]; exact h
      · exact keyGe_trans x y z h (hy z hz')
    · rw [if_neg h]
      apply List.pairwise_cons.mpr
      refine ⟨?_, ih hys⟩
      intro z hz
      rcases (mem_insertEntryDesc x z ys).mp hz with heq | hz'
      · rw [heq]
        rcases keyGe_total x y with hxy | hyx
        · exact absurd hxy h
        · exact hyx
      · exact hy z hz'

theorem pairwise_sortEntriesDesc : ∀ l, (sortEntriesDesc l).Pairwise keyGe := by
  intro l
  induction l with
  | nil => exact List.Pairwise.nil
  | cons x xs ih => exact pairwise_insertEntryDesc x _ ih

theorem not_keyGe_key_ne (x y : RankedEntry) (h : ¬ keyGe x y) :
    entryKey y ≠ entryKey x := by
  intro he
  apply h
  unfold keyGe
  right
  exact ⟨(congrArg Prod.fst he).symm, le_of_eq (congrArg Prod.snd he)⟩

theorem filter_insertEntryDesc (k : ℚ × ℕ) (x : RankedEntry) :
    ∀ l, (insertEntryDesc x l).filter (fun e => decide (entryKey e = k)) =
      if entryKey x = k then x :: l.filter (fun e => decide (entryKey e = k))
      else l.filter (fun e => decide (entryKey e = k)) := by
  intro l
  induction l with
  | nil =>
    by_cases hk : entryKey x = k
    · rw [if_pos hk]
      simp [insertEntryDesc, hk]
    · rw [if_neg hk]
      simp [insertEntryDesc, hk]
  | cons y ys ih =>
    rw [insertEntryDesc_cons]
    by_cases h : keyGe x y
    · rw [if_pos h]
      by_cases hk : entryKey x = k
      · rw [if_pos hk, List.filter_cons_of_pos (by simp [hk])]
      · rw [if_neg hk, List.filter_cons_of_neg (by simp [hk])]
    · rw [if_neg h]
      have hyne : entryKey y ≠ entryKey x := not_keyGe_key_ne x y h
      by_cases hyk : entryKey y = k
      · rw [List.filter_cons_of_pos (by simp [hyk]), ih]
        by_cases hk : entryKey x = k
        · exact absurd (hyk.trans hk.symm) hyne
        · rw [if_neg hk, if_neg hk, List.filter_cons_of_pos (by simp [hyk])]
      · rw [List.filter_cons_of_neg (by simp [hyk]), ih]
        by_cases hk : entryKey x = k
        · rw [if_pos hk, if_pos hk, List.filter_cons_of_neg (by simp [hyk])]
        · rw [if_neg hk, if_neg hk, List.filter_cons_of_neg (by simp [hyk])]

theorem filter_sortEntriesDesc (k : ℚ × ℕ) :
    ∀ l, (sortEntriesDesc l).filter (fun e => decide (entryKey e = k)) =
      l.filter (fun e => decide (entryKey e = k)) := by
  intro l
  induction l with
  | nil => rfl
  | cons x xs ih =>
    show (insertEntryDesc x (sortEntriesDesc xs)).filter _ = _
    rw [filter_insertEntryDesc, ih]
    by_cases hk : entryKey x = k
    · rw [if_pos hk, List.filter_cons_of_pos (by simp [hk])]
    · rw [if_neg hk, List.filter_cons_of_neg (by simp [hk])]

/-- An entry with jaccard 0.5 and overlap 1 (the similarity dictionaries
are synthetic: only the two key fields matter to the sort). -/
def exampleLowEntry : RankedEntry :=
  { ingredient := "cardamom", similarity := ⟨1, mkRat 5 10, mkRat 5 10, ["woody"]⟩,
    candidate_profile_size := 3, why_recommended := "example" }

/-- An entry with jaccard 0.8 and overlap 2. -/
def exampleHighOv2Entry : RankedEntry :=
  { ingredient := "galangal", similarity := ⟨2, mkRat 8 10, mkRat 8 10, ["citrus", "sharp"]⟩,
    candidate_profile_size := 4, why_recommended := "example" }

/-- An entry with jaccard 0.8 and overlap 1. -/
def exampleHighOv1Entry : RankedEntry :=
  { ingredient := "turmeric", similarity := ⟨1, mkRat 8 10, mkRat 8 10, ["earthy"]⟩,
    candidate_profile_size := 2, why_recommended := "example" }

/-- C3: `_rank_replacements` sorts its scored entries descending primarily
by jaccard, secondarily by overlap_count; the sort is stable (for every
key value, the sub-list of entries carrying that key keeps its encounter
order); `replace_in_recipe` truncates the sorted list to the
caller-requested limit; and on entries with jaccard values 0.5/0.8/0.8 and
overlap counts 1/2/1 in encounter order, the 0.8/overlap-2 entry ranks
first, the 0.8/overlap-1 entry second, the 0.5 entry last. -/
theorem claim_C3_ranking (lookup : String → Option (List String))
    (targetProfile : List String) (candidatePool : List String)
    (skipIngredient : Option String) (matchedIngredient : String)
    (limit : ℕ) (k : ℚ × ℕ) :
    List.Pairwise keyGe
      (rankReplacements lookup targetProfile candidatePool skipIngredient) ∧
    ((rankReplacements lookup targetProfile candidatePool skipIngredient).filter
        (fun e => decide (entryKey e = k)) =
      (buildEntries lookup targetProfile candidatePool skipIngredient).filter
        (fun e => decide (entryKey e = k))) ∧
    (replaceInRecipeSuggestions lookup targetProfile candidatePool
        matchedIngredient limit =
      (rankReplacements lookup targetProfile candidatePool
        (some matchedIngredient)).take limit ∧
     (replaceInRecipeSuggestions lookup targetProfile candidatePool
        matchedIngredient limit).length ≤ limit) ∧
    sortEntriesDesc [exampleLowEntry, exampleHighOv2Entry, exampleHighOv1Entry] =
      [exampleHighOv2Entry, exampleHighOv1Entry, exampleLowEntry] := by
  refine ⟨pairwise_sortEntriesDesc _, filter_sortEntriesDesc k _, ⟨rfl, ?_⟩, by decide⟩
  unfold replaceInRecipeSuggestions
  rw [List.length_take]
  exact min_le_left _ _

end FlavourRemix
